import Mathlib

/-!
Verification of the nvbio-benchmarks driver (`nvbio-benchmarks.cu`) against its
natural-language specification.  The CUDA/C++ source is shallowly embedded:
machine integers are modelled as `Nat`/`Int` with explicit wrap where overflow
matters, the benchmark loop is modelled with explicit fuel (it is a `while`
loop that need not terminate for batch size 0), and byte buffers are modelled
as lists of naturals.
-/

namespace NvbioBench

/-! ## Sequence Store: line ingestion (`Sequences::Sequences`, lines 93-102)

Each input line is `strncpy`-ed (skipping the leading marker character) into a
pre-zeroed slot of `seq_len` bytes, and `line.length() - 1` is stored into the
`int` length array.  A line is modelled as its list of byte values (no interior
NUL, as produced by `std::getline`). -/

/-- Model of C `strncpy(dst, src, n)` restricted to a pre-zeroed destination of
exactly `n` bytes, where `src` is the NUL-terminated string whose content bytes
are the list `s`: copies bytes of `s` until `n` bytes are written or `s` is
exhausted, then pads the remainder with zero bytes. -/
def strncpy_model : List Nat → Nat → List Nat
  | _, 0 => []
  | [], n + 1 => List.replicate (n + 1) 0
  | c :: cs, n + 1 => c :: strncpy_model cs n

/-- The slot stored for one input `line` (list of byte values) with stride
`seq_len`: the source pointer is `line.c_str() + 1` (the marker character is
skipped), copied with `strncpy` bounded by `seq_len` (source line 96-99).
Faithful only for `line.length ≥ 1`: for such a line `c_str() + 1` points
into (or at the terminator of) the string's buffer, and the copied content is
the remainder after the marker.  For an empty line `c_str() + 1` is a
one-past-the-end pointer and the `strncpy` read is undefined behavior, so
this model must not be consulted at `line = []`. -/
def store_slot (seq_len : Nat) (line : List Nat) : List Nat :=
  strncpy_model (line.drop 1) seq_len

/-- The value stored into `sequences_len[i]` (source line 100):
`line.length() - 1` is computed in `size_t` (wrapping below zero modulo
`2^64`) and then converted to the 32-bit signed `int` array element, i.e. the
low 32 bits are reinterpreted in two's complement. -/
def recorded_len (L : Nat) : Int :=
  let m : Nat := (L + 2 ^ 64 - 1) % 2 ^ 64 % 2 ^ 32
  if m < 2 ^ 31 then (m : Int) else (m : Int) - 2 ^ 32

/-! ## Sequence Store addressing and batch packing
(`Sequences::get_sequence`, line 114-123, and `batch_alignment_test`,
lines 129-162)

The flat store buffer is a byte-addressed memory `Nat → Nat`;
`get_sequence n` returns the address `seq_len * n`, so the byte `j` of
sequence `n` is `buffer (seq_len * n + j)`. -/

structure Sequences where
  seq_len : Nat
  num_alignments : Nat
  buffer : Nat → Nat

/-- Byte `j` of the slot returned by `get_sequence n`
(`sequences_buffer + seq_len * n`, source line 122). -/
def Sequences.seq_byte (s : Sequences) (n j : Nat) : Nat :=
  s.buffer (s.seq_len * n + j)

/-- Byte `j` of slot `k` of the host pattern buffer built by
`batch_alignment_test`: the `i`-th pattern slot is a `memcpy` of
`get_sequence(batch_offset + i*2)` (source lines 151-156). -/
def h_pattern (s : Sequences) (batch_offset k j : Nat) : Nat :=
  s.seq_byte (batch_offset + k * 2) j

/-- Byte `j` of slot `k` of the host text buffer built by
`batch_alignment_test`: the `i`-th text slot is a `memcpy` of
`get_sequence(batch_offset + (i+1)*2)` (source lines 158-162). -/
def h_text (s : Sequences) (batch_offset k j : Nat) : Nat :=
  s.seq_byte (batch_offset + (k + 1) * 2) j

/-- A concrete store whose byte at address `a` is `a` itself, making every
slot distinguishable; stride 1, two pairs (four sequences). -/
def exStore : Sequences := ⟨1, 2, fun a => a⟩

/-! ## Benchmark Driver loop (`main`, lines 239-249)

```
while (alignments_computed < num_alignments) {
    size_t curr_batch_size = std::min(batch_size,
                                      num_alignments - alignments_computed);
    batch_alignment_test(sequences, alignments_computed, curr_batch_size, &t);
    alignments_computed += batch_size;
}
```
Modelled with explicit fuel: one fuel unit per loop iteration.  The result is
`some (batches, final)` where `batches` lists the `(batch_offset,
curr_batch_size)` argument pairs passed to `batch_alignment_test` in order and
`final` is the value of `alignments_computed` after the loop; `none` means the
fuel was exhausted with the loop still running. -/

def driverAux (T B : Nat) : Nat → Nat → Option (List (Nat × Nat) × Nat)
  | 0, c => if c < T then none else some ([], c)
  | fuel + 1, c =>
      if c < T then
        (driverAux T B fuel (c + B)).map
          (fun r => ((c, min B (T - c)) :: r.1, r.2))
      else
        some ([], c)

/-- The driver loop run from `alignments_computed = 0` with fuel `T`
(sufficient whenever `B ≥ 1`, since each iteration advances by `B`). -/
def driverRun (T B : Nat) : Option (List (Nat × Nat) × Nat) :=
  driverAux T B T 0

/-- Effective batch size after the clamp at source lines 224-230:
`if (batch_size > num_alignments) batch_size = num_alignments`. -/
def clampBatch (batch_size num_alignments : Nat) : Nat :=
  if batch_size > num_alignments then num_alignments else batch_size

/-! ## Throughput report (`main`, lines 251-256)

`(double)((num_alignments * (uint64_t)(seq_size*seq_size)) / (total_time/1000))
 / 1000000000`, with `total_time` in milliseconds.  Modelled over `ℚ` (exact
arithmetic in place of IEEE doubles). -/

/-- The GCUPS figure printed by `main`, as a function of the alignment count,
the sequence stride and the accumulated time in milliseconds. -/
def gcups (num_alignments seq_size : Nat) (total_time_ms : ℚ) : ℚ :=
  ((num_alignments : ℚ) * ((seq_size : ℚ) * (seq_size : ℚ))
      / (total_time_ms / 1000)) / 1000000000

/-- Modelled from the spec: the throughput formula as the spec words it,
`(total_pairs × stride²) / total_time_seconds / 1e9`. -/
def gcups_spec (total_pairs stride : Nat) (total_time_seconds : ℚ) : ℚ :=
  ((total_pairs : ℚ) * (stride : ℚ) ^ 2) / total_time_seconds / 1000000000

/-! ## Exit codes (`main`, lines 211-222 and 258; `Sequences::Sequences`,
lines 70-84)

`main` returns `EXIT_FAILURE` (1) on a bad argument count; the `Sequences`
constructor calls `exit(-1)` (observed process status 255) on allocation
failure and then on file-open failure; on success `main` returns 0.  The
environment is abstracted by the argument count and two booleans. -/

def main_exit (argc : Nat) (allocOk fileOk : Bool) : Nat :=
  if argc < 4 ∨ 5 < argc then 1
  else if allocOk = false then 255
  else if fileOk = false then 255
  else 0

/-! ## Helper lemmas -/

/-- `strncpy` into a bounded destination: the result is the first `n` source
bytes followed by zero padding when the source is shorter than `n`. -/
lemma strncpy_model_eq (s : List Nat) (n : Nat) :
    strncpy_model s n = s.take n ++ List.replicate (n - s.length) 0 := by
  induction s generalizing n with
  | nil => cases n <;> simp [strncpy_model]
  | cons c cs ih =>
      cases n with
      | zero => simp [strncpy_model]
      | succ m => simp [strncpy_model, ih m]

lemma getD_replicate_zero (m k : Nat) :
    (List.replicate m (0 : Nat)).getD k 0 = 0 := by
  induction m generalizing k with
  | zero => simp [List.getD]
  | succ m ih =>
      cases k with
      | zero => simp [List.replicate]
      | succ k => simp [List.replicate, ih k]

/-- Once `alignments_computed` has reached the total, the loop exits at once
for any remaining fuel. -/
lemma driverAux_done (T B : Nat) (n c : Nat) (h : T ≤ c) :
    driverAux T B n c = some ([], c) := by
  cases n <;> simp [driverAux, Nat.not_lt.mpr h]

/-- With `batch_size = 0` the loop variable is never advanced, so no amount
of fuel completes the loop when work remains. -/
lemma driverAux_zero_stuck (T : Nat) :
    ∀ fuel c, c < T → driverAux T 0 fuel c = none := by
  intro fuel
  induction fuel with
  | zero => intro c hc; simp [driverAux, hc]
  | succ n ih =>
      intro c hc
      simp [driverAux, hc, ih c hc]

/-- One step of the ceiling-division recurrence driving the loop. -/
lemma ceil_div_step (B r : Nat) (hB : 0 < B) (hr : 0 < r) :
    (r + B - 1) / B = (r - B + B - 1) / B + 1 := by
  rcases le_or_lt B r with h | h
  · have h1 : r + B - 1 = (r - B + B - 1) + B := by omega
    rw [h1, Nat.add_div_right _ hB]
  · have h1 : r + B - 1 = (r - 1) + B := by omega
    have h2 : r - B + B - 1 = B - 1 := by omega
    rw [h1, Nat.add_div_right _ hB, h2, Nat.div_eq_of_lt (by omega),
      Nat.div_eq_of_lt (by omega)]

/-- Full characterization of the driver loop with sufficient fuel: it runs
`⌈(T - c) / B⌉` iterations, the iteration with offset `c + j*B` receiving the
clipped size `min B (T - c - j*B)`, and the accumulator ends at
`c + ⌈(T - c) / B⌉ * B` (it is incremented by the nominal `B` each time). -/
lemma driverAux_eq (B : Nat) (hB : 0 < B) :
    ∀ (n T c : Nat), T ≤ c + n * B →
    driverAux T B n c =
      some ((List.range ((T - c + B - 1) / B)).map
              (fun j => (c + j * B, min B (T - c - j * B))),
            c + ((T - c + B - 1) / B) * B) := by
  intro n
  induction n with
  | zero =>
      intro T c h
      simp only [Nat.zero_mul, Nat.add_zero] at h
      have h0 : T - c = 0 := by omega
      rw [driverAux_done T B 0 c h]
      simp [h0, Nat.div_eq_of_lt (Nat.sub_lt hB Nat.one_pos)]
  | succ n ih =>
      intro T c h
      by_cases hc : c < T
      · have hsn : (n + 1) * B = n * B + B := Nat.succ_mul n B
        have hfuel : T ≤ (c + B) + n * B := by omega
        rw [show driverAux T B (n + 1) c =
              (driverAux T B n (c + B)).map
                (fun r => ((c, min B (T - c)) :: r.1, r.2)) by
            simp [driverAux, hc]]
        rw [ih T (c + B) hfuel]
        have hstep : (T - c + B - 1) / B = (T - (c + B) + B - 1) / B + 1 := by
          have h1 := ceil_div_step B (T - c) hB (by omega)
          have h2 : T - c - B = T - (c + B) := by omega
          rw [h2] at h1
          exact h1
        have hfun : ((fun j => (c + j * B, min B (T - c - j * B))) ∘ Nat.succ)
            = (fun j => ((c + B) + j * B, min B (T - (c + B) - j * B))) := by
          funext j
          have hs2 : Nat.succ j * B = j * B + B := Nat.succ_mul j B
          have e1 : c + Nat.succ j * B = (c + B) + j * B := by
            rw [hs2]; omega
          have e2 : T - c - Nat.succ j * B = T - (c + B) - j * B := by
            rw [hs2]; omega
          simp [Function.comp, e1, e2]
        have hacc : c + ((T - (c + B) + B - 1) / B + 1) * B
            = (c + B) + ((T - (c + B) + B - 1) / B) * B := by
          have := Nat.add_mul ((T - (c + B) + B - 1) / B) 1 B
          omega
        rw [hstep, List.range_succ_eq_map, List.map_cons, List.map_map, hfun,
          hacc]
        simp
      · have hc' : T ≤ c := by omega
        rw [driverAux_done T B (n + 1) c hc']
        have h0 : T - c = 0 := by omega
        simp [h0, Nat.div_eq_of_lt (Nat.sub_lt hB Nat.one_pos)]

/-- The loop's iteration count is the rational ceiling of `T / B`. -/
lemma ceil_div_cast (T B : Nat) (hB : 0 < B) :
    (T + B - 1) / B = ⌈(T : ℚ) / (B : ℚ)⌉₊ := by
  rcases Nat.eq_zero_or_pos T with hT | hT
  · subst hT
    simp [Nat.div_eq_of_lt (Nat.sub_lt hB Nat.one_pos)]
  · set q := (T + B - 1) / B with hq
    have hq1 : 1 ≤ q := by
      rw [hq]
      exact (Nat.le_div_iff_mul_le hB).2 (by omega)
    have h1 : q * B ≤ T + B - 1 := Nat.div_mul_le_self _ _
    have h2 : T + B - 1 < (q + 1) * B :=
      (Nat.div_lt_iff_lt_mul hB).1 (Nat.lt_succ_self q)
    have hsucc : (q + 1) * B = q * B + B := Nat.succ_mul q B
    have hTle : T ≤ q * B := by omega
    have hlt : (q - 1) * B < T := by
      have hsub : (q - 1) * B = q * B - B := Nat.sub_one_mul q B
      omega
    have hBQ : (0 : ℚ) < (B : ℚ) := by exact_mod_cast hB
    symm
    rw [Nat.ceil_eq_iff (by omega)]
    constructor
    · rw [lt_div_iff₀ hBQ]
      exact_mod_cast hlt
    · rw [div_le_iff₀ hBQ]
      exact_mod_cast hTle

/-- Size of the last batch the loop issues: `B` when `B` divides `T`, else
`T mod B`. -/
lemma final_batch_size (T B : Nat) (hB : 0 < B) (hBT : B ≤ T) :
    min B (T - ((T + B - 1) / B - 1) * B) = if T % B = 0 then B else T % B := by
  have hdm : B * (T / B) + T % B = T := Nat.div_add_mod T B
  have hm : T % B < B := Nat.mod_lt T hB
  by_cases hm0 : T % B = 0
  · rcases Nat.eq_zero_or_pos (T / B) with hd | hd
    · rw [hd] at hdm
      omega
    · have hTeq : T + B - 1 = B * (T / B) + (B - 1) := by omega
      have hq : (T + B - 1) / B = T / B := by
        rw [hTeq, Nat.mul_add_div hB,
          Nat.div_eq_of_lt (show B - 1 < B by omega)]
        omega
      have hsub : (T / B - 1) * B = (T / B) * B - B := Nat.sub_one_mul _ _
      have hcomm : (T / B) * B = B * (T / B) := Nat.mul_comm _ _
      have hge : B ≤ B * (T / B) := by
        calc B = B * 1 := (Nat.mul_one B).symm
        _ ≤ B * (T / B) := Nat.mul_le_mul_left B hd
      rw [hq, if_pos hm0]
      omega
  · have hmul : B * (T / B + 1) = B * (T / B) + B := Nat.mul_succ B (T / B)
    have hTeq : T + B - 1 = B * (T / B + 1) + (T % B - 1) := by omega
    have hq : (T + B - 1) / B = T / B + 1 := by
      rw [hTeq, Nat.mul_add_div hB,
        Nat.div_eq_of_lt (show T % B - 1 < B by omega)]
    have hsimp : T / B + 1 - 1 = T / B := Nat.add_sub_cancel (T / B) 1
    have hcomm : (T / B) * B = B * (T / B) := Nat.mul_comm _ _
    rw [hq, if_neg hm0, hsimp]
    omega

/-! ## Claim theorems -/

/-- C1: the claim states that for a batch at pair offset `batch_offset`, the
pattern host buffer slot `k` copies Sequence Store slot `2*(batch_offset+k)`
and the text slot `k` copies slot `2*(batch_offset+k)+1`.  The code instead
reads slot `batch_offset + 2*k` for patterns and slot `batch_offset + 2*(k+1)`
for texts.  On the store whose byte at address `a` is `a` (stride 1): at
`batch_offset = 0, k = 0` the text slot holds the byte of store slot 2
(value `2`), not of slot `2*(0+0)+1 = 1` (value `1`); at `batch_offset = 1,
k = 0` the pattern slot holds the byte of store slot 1 (value `1`, an
odd/text slot), not of slot `2*(1+0) = 2` (value `2`). -/
theorem C1_packing_divergence :
    h_text exStore 0 0 0 = 2
    ∧ Sequences.seq_byte exStore (2 * (0 + 0) + 1) 0 = 1
    ∧ h_pattern exStore 1 0 0 = 1
    ∧ Sequences.seq_byte exStore (2 * (1 + 0)) 0 = 2 := by
  decide

/-- C2: the claim states that after the driver loop the accumulated
processed-pair count equals exactly `T`, each iteration incrementing by the
clipped batch size.  The code increments by the nominal `batch_size`
(line 248), so for `T = 5, B = 2` the loop issues clipped batches of sizes
`2, 2, 1` (which do sum to `5`) but the accumulator `alignments_computed`
finishes at `6`, overshooting `T = 5`. -/
theorem C2_accumulator_overshoot :
    driverRun 5 2 = some ([(0, 2), (2, 2), (4, 1)], 6)
    ∧ (([(0, 2), (2, 2), (4, 1)] : List (Nat × Nat)).map Prod.snd).sum = 5
    ∧ (6 : Nat) ≠ 5 := by
  refine ⟨rfl, rfl, by decide⟩

/-- C5: the reported throughput equals the spec formula
`(total_pairs * stride^2) / total_time_seconds / 1e9` with
`total_time_seconds = total_time_ms / 1000`, and at `total_pairs = 100`,
`stride = 64`, `total_time = 1 ms` the reported value is `0.4096` GCUPS
(exact rational arithmetic standing in for IEEE doubles). -/
theorem C5_throughput_formula :
    (∀ (T s : Nat) (t_ms : ℚ), gcups T s t_ms = gcups_spec T s (t_ms / 1000))
    ∧ gcups 100 64 1 = 4096 / 10000 := by
  constructor
  · intro T s t_ms
    simp [gcups, gcups_spec, pow_two]
  · norm_num [gcups]

/-- C3: for `1 ≤ B ≤ T`, the driver invokes `batch_alignment_test` exactly
`⌈T/B⌉` times, the `j`-th invocation receiving offset `j*B` and clipped size
`min B (T - j*B)`; the final batch has size `T mod B` when `B` does not
divide `T` and size `B` otherwise.  (The accumulator ends at `⌈T/B⌉ * B`.) -/
theorem C3_batch_schedule (T B : Nat) (hT : 1 ≤ T) (hB : 1 ≤ B)
    (hBT : B ≤ T) :
    driverRun T B =
      some ((List.range ((T + B - 1) / B)).map
              (fun j => (j * B, min B (T - j * B))),
            ((T + B - 1) / B) * B)
    ∧ (T + B - 1) / B = ⌈(T : ℚ) / (B : ℚ)⌉₊
    ∧ ((List.range ((T + B - 1) / B)).map
          (fun j => (j * B, min B (T - j * B)))).getLast?
        = some (((T + B - 1) / B - 1) * B,
                if T % B = 0 then B else T % B) := by
  have hfuel : T ≤ 0 + T * B := by
    have h1 : T * 1 ≤ T * B := Nat.mul_le_mul_left T hB
    omega
  have h := driverAux_eq B hB T T 0 hfuel
  refine ⟨?_, ceil_div_cast T B hB, ?_⟩
  · rw [driverRun, h]
    simp
  · have hq1 : 1 ≤ (T + B - 1) / B := (Nat.le_div_iff_mul_le hB).2 (by omega)
    obtain ⟨q', hq'⟩ : ∃ q', (T + B - 1) / B = q' + 1 :=
      ⟨(T + B - 1) / B - 1, by omega⟩
    have hfin := final_batch_size T B hB hBT
    rw [hq'] at hfin ⊢
    rw [List.range_succ, List.map_append]
    simp only [List.map_cons, List.map_nil, List.getLast?_concat]
    have hsub : q' + 1 - 1 = q' := by omega
    rw [hsub] at hfin ⊢
    rw [← hfin]

/-- Closed instance of `C3_batch_schedule` at `T = 5`, `B = 2`. -/
theorem C3_batch_schedule_witness :
    driverRun 5 2 =
      some ((List.range ((5 + 2 - 1) / 2)).map
              (fun j => (j * 2, min 2 (5 - j * 2))),
            ((5 + 2 - 1) / 2) * 2)
    ∧ (5 + 2 - 1) / 2 = ⌈((5 : Nat) : ℚ) / ((2 : Nat) : ℚ)⌉₊
    ∧ ((List.range ((5 + 2 - 1) / 2)).map
          (fun j => (j * 2, min 2 (5 - j * 2)))).getLast?
        = some (((5 + 2 - 1) / 2 - 1) * 2,
                if 5 % 2 = 0 then 2 else 5 % 2) :=
  C3_batch_schedule 5 2 (by norm_num) (by norm_num) (by norm_num)

/-- C4: when the CLI `batch_size` exceeds `num_alignments`, the effective
batch size is clamped down to `num_alignments` and the driver then processes
exactly one batch, of the full size. -/
theorem C4_clamp_single_batch (T Bcli : Nat) (hT : 1 ≤ T)
    (hover : T < Bcli) :
    clampBatch Bcli T = T
    ∧ driverRun T (clampBatch Bcli T) = some ([(0, T)], T) := by
  have hclamp : clampBatch Bcli T = T := if_pos hover
  refine ⟨hclamp, ?_⟩
  rw [hclamp]
  have hfuel : T ≤ 0 + T * T := by
    have h1 : T * 1 ≤ T * T := Nat.mul_le_mul_left T hT
    omega
  have h := driverAux_eq T hT T T 0 hfuel
  rw [driverRun, h]
  have hq : (T + T - 1) / T = 1 := by
    have h1 : T + T - 1 = (T - 1) + T := by omega
    rw [h1, Nat.add_div_right _ hT, Nat.div_eq_of_lt (by omega)]
  have hr1 : List.range 1 = [0] := rfl
  simp [hq, hr1]

/-- Closed instance of `C4_clamp_single_batch` at `T = 3`, CLI batch 5. -/
theorem C4_clamp_single_batch_witness :
    clampBatch 5 3 = 3 ∧ driverRun 3 (clampBatch 5 3) = some ([(0, 3)], 3) :=
  C4_clamp_single_batch 3 5 (by norm_num) (by norm_num)

/-- C6: for a stored line, every byte of the stride-sized slot at offset at
or beyond the true length `line.length - 1` is zero, and the copied content
is truncated to at most `seq_len` characters of the line remainder. -/
theorem C6_padding_truncation (seq_len : Nat) (line : List Nat)
    (_h : 1 ≤ line.length) :
    (∀ j, line.length - 1 ≤ j → j < seq_len →
        (store_slot seq_len line).getD j 0 = 0)
    ∧ store_slot seq_len line
        = (line.drop 1).take seq_len
            ++ List.replicate (seq_len - (line.length - 1)) 0 := by
  have hlen : (line.drop 1).length = line.length - 1 := by simp
  have heq : store_slot seq_len line
      = (line.drop 1).take seq_len
          ++ List.replicate (seq_len - (line.length - 1)) 0 := by
    rw [store_slot, strncpy_model_eq, hlen]
  refine ⟨?_, heq⟩
  intro j hj1 hj2
  rw [heq]
  have hlen2 : ((line.drop 1).take seq_len).length ≤ j := by
    simp only [List.length_take, hlen]
    omega
  rw [List.getD_eq_getElem?_getD, List.getElem?_append_right hlen2,
    ← List.getD_eq_getElem?_getD]
  exact getD_replicate_zero _ _

/-- Closed instance of `C6_padding_truncation`: the line `">AB"` (bytes
`[62, 65, 66]`) with stride 4 stores `[65, 66, 0, 0]`. -/
theorem C6_padding_truncation_witness :
    1 ≤ ([62, 65, 66] : List Nat).length
    ∧ store_slot 4 [62, 65, 66]
        = (([62, 65, 66] : List Nat).drop 1).take 4
            ++ List.replicate (4 - (([62, 65, 66] : List Nat).length - 1)) 0 :=
  ⟨by decide, (C6_padding_truncation 4 [62, 65, 66] (by decide)).2⟩

/-- C7: for a nonempty line (of any realistic length), the recorded length is
the line length minus one, with no clamping to the stride: when the line is
longer than `stride + 1` characters the recorded value exceeds the stride. -/
theorem C7_recorded_length (L stride : Nat) (h1 : 1 ≤ L)
    (h2 : L ≤ 2 ^ 31) :
    recorded_len L = (L : Int) - 1
    ∧ (stride + 1 < L → (stride : Int) < recorded_len L) := by
  have h64 : (2 : Nat) ^ 64 = 18446744073709551616 := by norm_num
  have h32 : (2 : Nat) ^ 32 = 4294967296 := by norm_num
  have h31 : (2 : Nat) ^ 31 = 2147483648 := by norm_num
  rw [h31] at h2
  have hm : (L + 2 ^ 64 - 1) % 2 ^ 64 % 2 ^ 32 = L - 1 := by
    rw [h64, h32]
    omega
  have hval : recorded_len L = ((L - 1 : Nat) : Int) := by
    simp only [recorded_len, hm]
    rw [if_pos (by rw [h31]; omega)]
  constructor
  · rw [hval]
    omega
  · intro hlt
    rw [hval]
    omega

/-- Closed instance of `C7_recorded_length` at line length 6, stride 4. -/
theorem C7_recorded_length_witness :
    recorded_len 6 = ((6 : Nat) : Int) - 1
    ∧ (4 + 1 < 6 → ((4 : Nat) : Int) < recorded_len 6) :=
  C7_recorded_length 6 4 (by norm_num) (by norm_num)

/-- C8: the process exits non-zero on fewer than 3 or more than 4 arguments
(`argc = nargs + 1`), on allocation failure, and on file-open failure; it
exits zero on successful completion. -/
theorem C8_exit_codes (nargs : Nat) (allocOk fileOk : Bool) :
    ((nargs < 3 ∨ 4 < nargs) → main_exit (nargs + 1) allocOk fileOk ≠ 0)
    ∧ (allocOk = false → main_exit (nargs + 1) allocOk fileOk ≠ 0)
    ∧ (fileOk = false → main_exit (nargs + 1) allocOk fileOk ≠ 0)
    ∧ (3 ≤ nargs → nargs ≤ 4 → allocOk = true → fileOk = true →
        main_exit (nargs + 1) allocOk fileOk = 0) := by
  cases allocOk <;> cases fileOk <;>
    simp only [main_exit] <;>
    refine ⟨?_, ?_, ?_, ?_⟩ <;>
    intro h <;>
    first
      | (intro h2 h3 h4; split_ifs <;> simp_all <;> omega)
      | (split_ifs <;> simp_all <;> omega)

/-- Closed instances of `C8_exit_codes`: 2 arguments fail, 3 succeed. -/
theorem C8_exit_codes_witness :
    main_exit (2 + 1) true true ≠ 0 ∧ main_exit (3 + 1) true true = 0 :=
  ⟨(C8_exit_codes 2 true true).1 (Or.inl (by norm_num)),
   (C8_exit_codes 3 true true).2.2.2 (by norm_num) (by norm_num) rfl rfl⟩

/-- C10: with an effective batch size of at least 1 the driver loop
terminates after exactly `⌈T/B⌉` iterations (within fuel `T`); with batch
size 0 and `T > 0` the loop variable is never advanced and no amount of fuel
completes the loop. -/
theorem C10_loop_termination (T B : Nat) (hB : 1 ≤ B) :
    (∃ L fin, driverRun T B = some (L, fin)
        ∧ L.length = ⌈(T : ℚ) / (B : ℚ)⌉₊)
    ∧ (∀ fuel, 0 < T → driverAux T 0 fuel 0 = none) := by
  constructor
  · have hfuel : T ≤ 0 + T * B := by
      have h1 : T * 1 ≤ T * B := Nat.mul_le_mul_left T hB
      omega
    have h := driverAux_eq B hB T T 0 hfuel
    refine ⟨_, _, h, ?_⟩
    rw [List.length_map, List.length_range]
    simpa using ceil_div_cast T B hB
  · intro fuel hT0
    exact driverAux_zero_stuck T fuel 0 hT0

/-- Closed instance of `C10_loop_termination` at `T = 5`, `B = 2`. -/
theorem C10_loop_termination_witness :
    (∃ L fin, driverRun 5 2 = some (L, fin)
        ∧ L.length = ⌈((5 : Nat) : ℚ) / ((2 : Nat) : ℚ)⌉₊)
    ∧ (∀ fuel, 0 < 5 → driverAux 5 0 fuel 0 = none) :=
  C10_loop_termination 5 2 (by norm_num)

end NvbioBench
